import Mathlib

/-!
Shallow embedding of `rust_async_generators` (`src/lib.rs`).

The library drives an async computation synchronously: `generate` wraps a
closure's future together with a shared single-slot cell
(`Arc<Mutex<Option<Item>>>`) and a `done` flag; `Generator::next` polls the
future in a loop, draining the cell after each `Pending` poll and returning
the drained value, until the future is `Ready`, at which point it sets `done`
and returns `None`.

Embedding conventions:
- A future is a step function `StepFn σ Item`: given the future's internal
  state and the current contents of the shared cell, it either panics
  (`Option.none`) or returns the poll result, the new internal state, and the
  new cell contents.  The shared mutex cell is threaded explicitly as an
  `Option Item`.
- `YieldFuture.poll` mirrors `impl Future for YieldFuture`: `value.take()`
  followed by `lock.replace(item)` on the first poll (an unconditional
  overwrite of the cell), the `panic!` branch when re-polled with the cell
  still occupied, and `Ready` when the cell has been drained.
- The unbounded `while` loop in `Generator::next` is given a fuel parameter;
  running out of fuel is reported as `NextRes.diverge` (distinct from a
  panic and from the two returns the Rust code can actually take).
-/

/-- Rust type `std::task::Poll` specialised to `Output = ()` as in `Fut: Future<Output = ()>`. -/
inductive Poll where
  | Ready
  | Pending
deriving DecidableEq, Repr

/-- The poll step of a future over item type `Item` with internal state `σ`:
from the internal state and the shared cell it either panics (`Option.none`)
or returns the `Poll` result, the new internal state, and the new cell. -/
def StepFn (σ Item : Type) : Type :=
  σ → Option Item → Option (Poll × σ × Option Item)

/-- The `YieldFuture` struct from the source: the `shared` reference is threaded
explicitly through `poll`, so only the `value` field remains. -/
structure YieldFuture (Item : Type) where
  value : Option Item
deriving DecidableEq, Repr

/-- Poll of `YieldFuture` (`impl Future for YieldFuture`): on the first poll, `value.take()` succeeds
and the item is placed in the cell with `lock.replace(item)` (overwriting any
previous contents) and the poll is `Pending`; afterwards (`value` is `none`),
an occupied cell is the `panic!("YieldFuture used within incorrect executor")`
branch (modelled as `Option.none`) and an empty cell is `Ready`. -/
def YieldFuture.poll (yf : YieldFuture Item) (cell : Option Item) :
    Option (Poll × YieldFuture Item × Option Item) :=
  match yf.value with
  | some item => some (.Pending, ⟨Option.none⟩, some item)
  | Option.none =>
    match cell with
    | some _ => Option.none
    | Option.none => some (.Ready, ⟨Option.none⟩, Option.none)

/-- The `Communication` handle: in the source it wraps the shared cell; here the cell is
threaded explicitly, so the handle itself carries no data. -/
structure Communication (Item : Type) where
deriving DecidableEq, Repr

/-- Method `Communication::yield_`: constructs `YieldFuture { shared, value: Some(item) }`.
The shared cell is available through `self` but is not touched, so it is
returned unchanged alongside the new future. -/
def Communication.yield_ (_ : Communication Item) (cell : Option Item)
    (item : Item) : YieldFuture Item × Option Item :=
  (⟨some item⟩, cell)

/-- The `Generator` struct: internal state of the boxed future, the shared
cell, and the `done` flag.  (The step function itself is passed separately to
`Generator.next`.) -/
structure Gen (σ Item : Type) where
  state : σ
  cell : Option Item
  done : Bool
deriving DecidableEq, Repr

/-- Outcome of one `Generator::next` call: `val v g` is `return Some(v)` (cell
drained by `take`, `done` still false), `none_ g` is `return None`, `panic`
propagates a panic of the polled future, and `diverge` means the `while` loop
ran past the available fuel. -/
inductive NextRes (σ Item : Type) where
  | val (item : Item) (g : Gen σ Item)
  | none_ (g : Gen σ Item)
  | panic
  | diverge
deriving DecidableEq, Repr

/-- The `while poll().is_pending()` loop body of `Generator::next`: poll the
future; while it is pending, `take()` the cell and return its contents if
some; on `Ready`, set `done` and return `None` (without draining the cell). -/
def nextAux (f : StepFn σ Item) : Nat → σ → Option Item → NextRes σ Item
  | 0, _, _ => .diverge
  | fuel + 1, s, c =>
    match f s c with
    | Option.none => .panic
    | some (.Ready, s', c') => .none_ ⟨s', c', true⟩
    | some (.Pending, s', c') =>
      match c' with
      | some item => .val item ⟨s', Option.none, false⟩
      | Option.none => nextAux f fuel s' Option.none

/-- Method `Generator::next`: if `done`, return `None` immediately; otherwise run the
polling loop. -/
def Generator.next (f : StepFn σ Item) (g : Gen σ Item) (fuel : Nat) :
    NextRes σ Item :=
  if g.done then .none_ g else nextAux f fuel g.state g.cell

/-- Function `generate`: create the default (empty) shared cell, immediately invoke the
closure with a fresh `Communication` handle to obtain the future's initial
state, and return the generator with `done: false`.  The future is not
polled. -/
def generate (F : Communication Item → σ) : Gen σ Item :=
  { state := F ⟨⟩, cell := Option.none, done := false }

/-- Pull `n` items with successive `Generator.next` calls; `Option.none` if
any call fails to return an item. -/
def pullN (f : StepFn σ Item) (fuel : Nat) : Nat → Gen σ Item →
    Option (List Item × Gen σ Item)
  | 0, g => some ([], g)
  | n + 1, g =>
    match Generator.next f g fuel with
    | .val v g' => (pullN f fuel n g').map (fun p => (v :: p.1, p.2))
    | _ => Option.none

/-- Observation of one `Generator.next` call, forgetting the generator state. -/
inductive Obs (Item : Type) where
  | item (v : Item)
  | ended
  | fault
deriving DecidableEq, Repr

/-- Observations of `n` successive `Generator.next` calls. -/
def callObs (f : StepFn σ Item) (fuel : Nat) : Nat → Gen σ Item → List (Obs Item)
  | 0, _ => []
  | n + 1, g =>
    match Generator.next f g fuel with
    | .val v g' => .item v :: callObs f fuel n g'
    | .none_ g' => .ended :: callObs f fuel n g'
    | .panic => [.fault]
    | .diverge => [.fault]

/-- The async block of the `no_state` test family,
`|co| async move { for item in list { co.yield_(item).await; } }`, as the
state machine the compiler would produce: the `YieldFuture` currently being
awaited (if any) and the items not yet yielded. -/
structure ListGen (Item : Type) where
  current : Option (YieldFuture Item)
  rest : List Item
deriving DecidableEq, Repr

/-- State of `ListGen` entering the loop body: if items remain, build the
`YieldFuture` with `Communication.yield_` and poll it at once (the `await`). -/
def ListGen.startNext (rest : List Item) (cell : Option Item) :
    Option (Poll × ListGen Item × Option Item) :=
  match rest with
  | [] => some (.Ready, ⟨Option.none, []⟩, cell)
  | item :: rest' =>
    match YieldFuture.poll (Communication.yield_ ⟨⟩ cell item).1
        (Communication.yield_ ⟨⟩ cell item).2 with
    | Option.none => Option.none
    | some (p, yf', cell') => some (p, ⟨some yf', rest'⟩, cell')

/-- One poll of the `ListGen` future: poll the awaited `YieldFuture` if there
is one; once it is `Ready`, fall through to the next loop iteration. -/
def ListGen.poll : StepFn (ListGen Item) Item := fun g cell =>
  match g.current with
  | some yf =>
    match YieldFuture.poll yf cell with
    | Option.none => Option.none
    | some (.Pending, yf', cell') => some (.Pending, ⟨some yf', g.rest⟩, cell')
    | some (.Ready, _, cell') => ListGen.startNext g.rest cell'
  | Option.none => ListGen.startNext g.rest cell

/-- The closure `|co| async move { ... }` for a fixed item list: invoked with
the handle, it returns the not-yet-run state machine. -/
def listClosure (l : List Item) : Communication Item → ListGen Item :=
  fun _ => ⟨Option.none, l⟩

/-- The async block of the `mut_ref` test,
`|co| async move { loop { co.yield_(*ir).await; *ir += 1; } }`: the awaited
`YieldFuture` (if any) together with the borrowed counter `*ir` (external
state captured by mutable reference, carried here inside the future state). -/
structure CounterGen where
  current : Option (YieldFuture Nat)
  i : Nat
deriving DecidableEq, Repr

/-- One poll of the `CounterGen` future: poll the awaited `YieldFuture`; when
it completes, execute `*ir += 1` and start the next `co.yield_(*ir).await`. -/
def CounterGen.poll : StepFn CounterGen Nat := fun g cell =>
  match g.current with
  | some yf =>
    match YieldFuture.poll yf cell with
    | Option.none => Option.none
    | some (.Pending, yf', cell') => some (.Pending, ⟨some yf', g.i⟩, cell')
    | some (.Ready, _, cell') =>
      match YieldFuture.poll (Communication.yield_ ⟨⟩ cell' (g.i + 1)).1
          (Communication.yield_ ⟨⟩ cell' (g.i + 1)).2 with
      | Option.none => Option.none
      | some (p, yf', cell'') => some (p, ⟨some yf', g.i + 1⟩, cell'')
  | Option.none =>
    match YieldFuture.poll (Communication.yield_ ⟨⟩ cell g.i).1
        (Communication.yield_ ⟨⟩ cell g.i).2 with
    | Option.none => Option.none
    | some (p, yf', cell') => some (p, ⟨some yf', g.i⟩, cell')

/-- The `mut_ref` closure with the counter starting at `0`. -/
def counterClosure : Communication Nat → CounterGen :=
  fun _ => ⟨Option.none, 0⟩

/-- The list `[a, a+1, ..., a+n-1]`: the items the counter computation emits. -/
def natsFrom : Nat → Nat → List Nat
  | _, 0 => []
  | a, n + 1 => a :: natsFrom (a + 1) n

/-- The computation's own emission sequence, independent of the driver: run
the future step by step from an empty cell, recording each value that appears
in the cell and draining it, until the future is `Ready` (`Option.none` on a
panic or when the fuel runs out). -/
def rawRun (f : StepFn σ Item) : Nat → σ → Option (List Item)
  | 0, _ => Option.none
  | fuel + 1, s =>
    match f s Option.none with
    | Option.none => Option.none
    | some (.Ready, _, _) => some []
    | some (.Pending, s', c') => (rawRun f fuel s').map (fun l => c'.toList ++ l)

/-- Pull items with successive `Generator.next` calls until the generator
reports end of sequence, over at most `calls` calls. -/
def drain (f : StepFn σ Item) (fuel : Nat) : Nat → Gen σ Item → Option (List Item)
  | 0, _ => Option.none
  | calls + 1, g =>
    match Generator.next f g fuel with
    | .val v g' => (drain f fuel calls g').map (fun l => v :: l)
    | .none_ _ => some []
    | .panic => Option.none
    | .diverge => Option.none

/-- An example computation with an intermediate suspension point that is not
an emit: its first poll is `Pending` with the cell left empty, its second
poll emits `7`, and its third poll completes. -/
def stepEx : StepFn Nat Nat := fun s _ =>
  match s with
  | 0 => some (.Pending, 1, Option.none)
  | 1 => some (.Pending, 2, some 7)
  | _ => some (.Ready, s, Option.none)

/-- When the polling loop returns `None`, the generator it leaves behind has
the `done` flag set. -/
theorem nextAux_none_done {σ Item : Type} (f : StepFn σ Item) :
    ∀ (fuel : Nat) (s : σ) (c : Option Item) (g' : Gen σ Item),
      nextAux f fuel s c = .none_ g' → g'.done = true := by
  intro fuel
  induction fuel with
  | zero =>
    intro s c g' h
    simp [nextAux] at h
  | succ n ih =>
    intro s c g' h
    unfold nextAux at h
    cases hf : f s c with
    | none => rw [hf] at h; exact absurd h (by simp)
    | some r =>
      obtain ⟨p, s', c'⟩ := r
      rw [hf] at h
      cases p with
      | Ready =>
        simp only [NextRes.none_.injEq] at h
        rw [← h]
      | Pending =>
        cases c' with
        | none => exact ih s' Option.none g' h
        | some item => exact absurd h (by simp)

/-- If `Generator.next` returns `None`, the resulting generator has `done`
set. -/
theorem next_none_done {σ Item : Type} (f : StepFn σ Item) (g : Gen σ Item)
    (fuel : Nat) (g' : Gen σ Item) (h : Generator.next f g fuel = .none_ g') :
    g'.done = true := by
  unfold Generator.next at h
  by_cases hd : g.done
  · simp only [hd, if_true] at h
    cases h
    exact hd
  · simp only [hd, if_false] at h
    exact nextAux_none_done f fuel g.state g.cell g' h

/-- On a generator whose `done` flag is set, `Generator.next` returns `None`
at once, for any step function and any fuel. -/
theorem next_done_none {σ Item : Type} (f : StepFn σ Item) (g : Gen σ Item)
    (fuel : Nat) (h : g.done = true) : Generator.next f g fuel = .none_ g := by
  unfold Generator.next
  simp [h]

/-- Growing the fuel does not change a successful `rawRun`. -/
theorem rawRun_mono {σ Item : Type} (f : StepFn σ Item) :
    ∀ (fuel : Nat) (s : σ) (l : List Item), rawRun f fuel s = some l →
      ∀ (fuel' : Nat), fuel ≤ fuel' → rawRun f fuel' s = some l := by
  intro fuel
  induction fuel with
  | zero =>
    intro s l h
    simp [rawRun] at h
  | succ n ih =>
    intro s l h fuel' hle
    obtain ⟨m, rfl⟩ : ∃ m, fuel' = m + 1 := by
      cases fuel' with
      | zero => omega
      | succ m => exact ⟨m, rfl⟩
    unfold rawRun at h ⊢
    cases hf : f s Option.none with
    | none => rw [hf] at h; exact absurd h (by simp)
    | some r =>
      obtain ⟨p, s', c'⟩ := r
      rw [hf] at h
      cases p with
      | Ready => exact h
      | Pending =>
        simp only [Option.map_eq_some'] at h
        obtain ⟨l0, hl0, rfl⟩ := h
        show Option.map (fun l => c'.toList ++ l) (rawRun f m s')
          = some (c'.toList ++ l0)
        rw [ih s' l0 hl0 m (by omega)]
        rfl

/-- If the computation's emission sequence begins with `v`, the polling loop
returns `v` as the next item, leaving the future at a state whose remaining
emission sequence is the tail, with the cell drained and `done` unset. -/
theorem nextAux_of_rawRun_cons {σ Item : Type} (f : StepFn σ Item) :
    ∀ (fuel : Nat) (s : σ) (v : Item) (l : List Item),
      rawRun f fuel s = some (v :: l) →
      ∃ s', nextAux f fuel s Option.none = .val v ⟨s', Option.none, false⟩ ∧
        rawRun f fuel s' = some l := by
  intro fuel
  induction fuel with
  | zero =>
    intro s v l h
    simp [rawRun] at h
  | succ n ih =>
    intro s v l h
    unfold rawRun at h
    unfold nextAux
    cases hf : f s Option.none with
    | none => rw [hf] at h; exact absurd h (by simp)
    | some r =>
      obtain ⟨p, s', c'⟩ := r
      rw [hf] at h
      cases p with
      | Ready => exact absurd h (by simp)
      | Pending =>
        simp only [Option.map_eq_some'] at h
        obtain ⟨l0, hl0, hcat⟩ := h
        cases c' with
        | none =>
          simp only [Option.toList, List.nil_append] at hcat
          subst hcat
          obtain ⟨s'', h1, h2⟩ := ih s' v l hl0
          exact ⟨s'', h1, rawRun_mono f n s'' l h2 (n + 1) (by omega)⟩
        | some w =>
          simp only [Option.toList, List.cons_append, List.nil_append,
            List.cons.injEq] at hcat
          obtain ⟨rfl, rfl⟩ := hcat
          exact ⟨s', rfl, rawRun_mono f n s' l0 hl0 (n + 1) (by omega)⟩

/-- If the computation's emission sequence is empty, the polling loop reaches
`Ready` and returns `None` with `done` set. -/
theorem nextAux_of_rawRun_nil {σ Item : Type} (f : StepFn σ Item) :
    ∀ (fuel : Nat) (s : σ), rawRun f fuel s = some [] →
      ∃ s' c', nextAux f fuel s Option.none = .none_ ⟨s', c', true⟩ := by
  intro fuel
  induction fuel with
  | zero =>
    intro s h
    simp [rawRun] at h
  | succ n ih =>
    intro s h
    unfold rawRun at h
    unfold nextAux
    cases hf : f s Option.none with
    | none => rw [hf] at h; exact absurd h (by simp)
    | some r =>
      obtain ⟨p, s', c'⟩ := r
      rw [hf] at h
      cases p with
      | Ready => exact ⟨s', c', rfl⟩
      | Pending =>
        simp only [Option.map_eq_some'] at h
        obtain ⟨l0, hl0, hcat⟩ := h
        cases c' with
        | none =>
          simp only [Option.toList, List.nil_append] at hcat
          subst hcat
          exact ih s' hl0
        | some w => simp [Option.toList] at hcat

/-- Pulling `m` further items from the counter generator in its steady state
(awaiting a spent `YieldFuture`, counter at `k`) yields `k+1, ..., k+m` and
leaves the counter at `k + m`. -/
theorem counter_pull_steady :
    ∀ (m k : Nat),
      pullN CounterGen.poll 2 m
          (Gen.mk (CounterGen.mk (some ⟨Option.none⟩) k) Option.none false)
        = some (natsFrom (k + 1) m,
            Gen.mk (CounterGen.mk (some ⟨Option.none⟩) (k + m)) Option.none false) := by
  intro m
  induction m with
  | zero =>
    intro k
    simp [pullN, natsFrom]
  | succ n ih =>
    intro k
    have hnext : Generator.next CounterGen.poll
        (Gen.mk (CounterGen.mk (some ⟨Option.none⟩) k) Option.none false) 2
        = .val (k + 1)
            (Gen.mk (CounterGen.mk (some ⟨Option.none⟩) (k + 1)) Option.none false) := rfl
    have hadd : k + 1 + n = k + (n + 1) := by omega
    simp only [pullN, hnext, ih (k + 1), hadd, Option.map_some']
    rfl

/-- C1: For the computation that emits the fixed literal sequence `[4, 3, 2]`
(the `no_state` test), four successive `Generator.next` calls observe exactly
`Some 4`, `Some 3`, `Some 2`, and then the end-of-sequence sentinel `None`,
in that order. -/
theorem no_state_roundtrip :
    callObs ListGen.poll 2 4 (generate (listClosure [4, 3, 2]))
      = [.item 4, .item 3, .item 2, .ended] := rfl

/-- C2: Once `Generator.next` has returned the end-of-sequence sentinel, the
generator it leaves behind is a fixed point: every further call returns the
sentinel with the generator unchanged, for every fuel bound (even zero) and
even if the step function is swapped for an arbitrary one — so the underlying
computation is never polled again, for arbitrarily many further calls. -/
theorem next_after_exhaustion_idempotent {σ Item : Type} (f : StepFn σ Item)
    (g : Gen σ Item) (fuel : Nat) (g' : Gen σ Item)
    (h : Generator.next f g fuel = .none_ g') :
    ∀ (f' : StepFn σ Item) (fuel' : Nat), Generator.next f' g' fuel' = .none_ g' := by
  intro f' fuel'
  exact next_done_none f' g' fuel' (next_none_done f g fuel g' h)

/-- Witness for C2 at the exhausted empty-list generator. -/
theorem next_after_exhaustion_idempotent_witness :
    Generator.next ListGen.poll
        (Gen.mk (ListGen.mk Option.none ([] : List Nat)) Option.none true) 0
      = .none_ (Gen.mk (ListGen.mk Option.none []) Option.none true) :=
  next_after_exhaustion_idempotent ListGen.poll
    (generate (listClosure [])) 1
    (Gen.mk (ListGen.mk Option.none []) Option.none true) rfl ListGen.poll 0

/-- C3 counterexample: for the `mut_ref` counter computation, pulling `n = 1`
item leaves the shared counter at `0`, not at `n = 1`: the increment after an
emit only runs when the computation is resumed by the following pull. -/
theorem counter_after_one_pull_counterexample :
    pullN CounterGen.poll 2 1 (generate counterClosure)
      = some ([0], Gen.mk (CounterGen.mk (some ⟨Option.none⟩) 0) Option.none false)
    ∧ (0 : Nat) ≠ 1 := by
  refine ⟨rfl, ?_⟩
  decide

/-- C3 (amended): pulling `n + 1` items from the counter computation yields
exactly `0, 1, ..., n` and leaves the shared counter at `n` — that is, after
pulling `m ≥ 1` items the counter equals `m - 1`, the last item pulled. -/
theorem counter_after_pulls (n : Nat) :
    pullN CounterGen.poll 2 (n + 1) (generate counterClosure)
      = some (natsFrom 0 (n + 1),
          Gen.mk (CounterGen.mk (some ⟨Option.none⟩) n) Option.none false) := by
  have h1 : Generator.next CounterGen.poll (generate counterClosure) 2
      = .val 0 (Gen.mk (CounterGen.mk (some ⟨Option.none⟩) 0) Option.none false) := rfl
  simp only [pullN, h1, counter_pull_steady n 0, Option.map_some']
  simp [natsFrom]

/-- C4: after an emit's `YieldFuture` has placed its value (first poll:
`Pending`, value moved to the cell, `value` field spent), polling it again
while the cell is still occupied hits the
`panic!("YieldFuture used within incorrect executor")` branch (modelled as
`Option.none`) instead of returning `Pending` or `Ready`. -/
theorem yield_repoll_occupied_panics {Item : Type} (item : Item) (c0 : Option Item) :
    YieldFuture.poll (Communication.yield_ ⟨⟩ c0 item).1 c0
        = some (.Pending, ⟨Option.none⟩, some item)
    ∧ YieldFuture.poll (⟨Option.none⟩ : YieldFuture Item) (some item)
        = Option.none :=
  ⟨rfl, rfl⟩

/-- C5: the `YieldFuture` returned by `yield_` places the item into the cell
and returns `Pending` on its first poll; on a subsequent poll with the cell
empty (value consumed) it returns `Ready` with no value. -/
theorem yield_first_poll_pending_then_ready {Item : Type} (item : Item)
    (c0 : Option Item) :
    YieldFuture.poll (Communication.yield_ ⟨⟩ c0 item).1 c0
        = some (.Pending, ⟨Option.none⟩, some item)
    ∧ YieldFuture.poll (⟨Option.none⟩ : YieldFuture Item) Option.none
        = some (.Ready, ⟨Option.none⟩, Option.none) :=
  ⟨rfl, rfl⟩

/-- C6 counterexample: first-polling an emit's `YieldFuture` carrying `1`
while the cell is occupied by `2` silently overwrites the cell
(`lock.replace(item)`) and returns `Pending`; it does not surface a fatal
error (the panic result would be `Option.none`). -/
theorem put_while_occupied_counterexample :
    YieldFuture.poll (⟨some 1⟩ : YieldFuture Nat) (some 2)
        = some (.Pending, ⟨Option.none⟩, some 1)
    ∧ YieldFuture.poll (⟨some 1⟩ : YieldFuture Nat) (some 2) ≠ Option.none := by
  decide

/-- C6 (amended): the write that Emit performs on its first poll replaces the
cell contents unconditionally — a value already in the slot is silently
discarded, with no error at the write; the fatal error surfaces only when a
later poll (after the value was taken) finds the slot still occupied. -/
theorem put_replaces_unconditionally {Item : Type} (item x : Item)
    (c0 : Option Item) :
    YieldFuture.poll (⟨some item⟩ : YieldFuture Item) c0
        = some (.Pending, ⟨Option.none⟩, some item)
    ∧ YieldFuture.poll (⟨Option.none⟩ : YieldFuture Item) (some x)
        = Option.none :=
  ⟨rfl, rfl⟩

/-- C7: the items returned by successive `Generator.next` calls are exactly
the computation's own emission sequence (`rawRun`), in order: intermediate
`Pending` polls that leave the cell empty are stepped through inside the same
call and are never surfaced as produced values. -/
theorem next_returns_emissions_in_order {σ Item : Type} (f : StepFn σ Item)
    (s : σ) (fuel : Nat) (l : List Item) (h : rawRun f fuel s = some l) :
    drain f fuel (l.length + 1) (Gen.mk s Option.none false) = some l := by
  induction l generalizing s with
  | nil =>
    obtain ⟨s', c', hn⟩ := nextAux_of_rawRun_nil f fuel s h
    have hnext : Generator.next f (Gen.mk s Option.none false) fuel
        = .none_ (Gen.mk s' c' true) := by
      unfold Generator.next
      simpa using hn
    simp [drain, hnext]
  | cons v l' ih =>
    obtain ⟨s', hv, hraw⟩ := nextAux_of_rawRun_cons f fuel s v l' h
    have hnext : Generator.next f (Gen.mk s Option.none false) fuel
        = .val v (Gen.mk s' Option.none false) := by
      unfold Generator.next
      simpa using hv
    simp only [List.length_cons]
    show drain f fuel (l'.length + 1 + 1) (Gen.mk s Option.none false) = some (v :: l')
    unfold drain
    rw [hnext]
    show Option.map (fun l => v :: l)
        (drain f fuel (l'.length + 1) (Gen.mk s' Option.none false))
      = some (v :: l')
    rw [ih s' hraw]
    rfl

/-- Witness for C7 at a computation with an intermediate non-emit suspension
before it emits `7` and completes. -/
theorem next_returns_emissions_witness :
    drain stepEx 3 2 (Gen.mk 0 Option.none false) = some [7] :=
  next_returns_emissions_in_order stepEx 0 3 [7] (by decide)

/-- C8: `generate` invokes the closure immediately — the returned generator's
future state is exactly the closure applied to a fresh `Communication` handle
— with the cell empty and `done` unset, and the computation is not polled:
the first application of a step function happens only inside the first
`Generator.next` call, starting from that untouched state and empty cell. -/
theorem generate_eager_but_unpolled {Item σ : Type} (F : Communication Item → σ) :
    (generate F).state = F ⟨⟩
    ∧ (generate F).cell = Option.none
    ∧ (generate F).done = false
    ∧ ∀ (f : StepFn σ Item) (fuel : Nat),
        Generator.next f (generate F) fuel = nextAux f fuel (F ⟨⟩) Option.none :=
  ⟨rfl, rfl, rfl, fun _ _ => rfl⟩

/-- C9: for the computation that emits nothing and completes immediately, the
very first `Generator.next` call returns the end-of-sequence sentinel. -/
theorem empty_computation_first_next_ends :
    Generator.next ListGen.poll (generate (listClosure ([] : List Nat))) 1
      = .none_ (Gen.mk (ListGen.mk Option.none []) Option.none true) := rfl

/-- C10: `Communication::yield_` by itself leaves the shared cell unchanged —
it only constructs the `YieldFuture`; the item reaches the cell only when
that future is first polled, so a never-polled `yield_` emits nothing. -/
theorem yield_alone_leaves_cell_unchanged {Item : Type} (c : Option Item)
    (item : Item) :
    (Communication.yield_ ⟨⟩ c item).2 = c
    ∧ YieldFuture.poll (Communication.yield_ ⟨⟩ c item).1 c
        = some (.Pending, ⟨Option.none⟩, some item) :=
  ⟨rfl, rfl⟩
